import Mathlib

/-!
Shallow embedding of the makeid-l1-printer-core transmission and rendering
pipeline, together with proofs of the specification's testable properties.

The definitions translate the TypeScript source:
* `src/src/utils/config.ts` (`getPrinterProtocol`)
* `src/src/services/printerService.ts`
  (`calculateImageSplits`, `sendDataInPackets`, `sendImageSplit`, `sendImageData`)
* `src/src/utils/imageProcessor.ts`
  (`bitArrayToByte`, `canvasToImageData`, `processVariables`,
   `getCanvasConfig`, the per-element render routines, `renderFromTemplate`,
   `createImageFromJson`)
-/

/-! ## Definitions -/

/-- Ceiling division on naturals, the translation of `Math.ceil(a / b)`
for non-negative integer `a` and positive integer `b`. -/
def ceilDiv (a b : Nat) : Nat := (a + b - 1) / b

/-- `ImageDimensions` from `src/src/types/index.ts`: width and height in
device units plus the DPI value. -/
structure ImageDimensions where
  width : Nat
  height : Nat
  dpi : Nat
deriving DecidableEq, Repr

/-- `PrinterProtocol` from `src/src/types/index.ts`. -/
structure PrinterProtocol where
  firmwareRequest : List Nat
  prefixBytes : List Nat
  postfixBytes : List Nat
deriving DecidableEq, Repr

/-- `getPrinterProtocol` from `src/src/utils/config.ts`: builds the
firmware-request, prefix and postfix command frames for given dimensions.
`>>> 8` and `&&& 0xFF` translate the JavaScript `>> 8` and `& 0xFF`. -/
def getPrinterProtocol (imageDimensions : ImageDimensions) : PrinterProtocol :=
  { firmwareRequest := [0x10, 0xFF, 0x20, 0xF1]
    prefixBytes := [0x10, 0xFF, 0xFE, 0x01, 0x10, 0xFF, 0xFE, 0x40, 0x1D, 0x76, 0x30,
      imageDimensions.height >>> 8, imageDimensions.height &&& 0xFF,
      imageDimensions.width >>> 8, imageDimensions.width &&& 0xFF, 0x00]
    postfixBytes := [0x1B, 0x4A, 0x40, 0x10, 0xFF, 0xFE, 0x45] }

/-- `MAX_PRINTER_WIDTH` from `PrinterService`. -/
def MAX_PRINTER_WIDTH : Nat := 255

/-- `ImageSplit` from `src/src/services/printerService.ts`. -/
structure ImageSplit where
  data : List Nat
  dimensions : ImageDimensions
  splitIndex : Nat
  totalSplits : Nat
deriving DecidableEq, Repr

/-- `PrinterService.calculateImageSplits`: cuts the packed image byte array
into width-bounded splits.  The `for` loop over `splitIndex` is translated
as a map over `List.range`; `imageData.slice(a, b)` is `(drop a).take (b - a)`. -/
def calculateImageSplits (imageData : List Nat) (imageDimensions : ImageDimensions) :
    List ImageSplit :=
  let totalWidth := imageDimensions.width
  let height := imageDimensions.height
  let dpi := imageDimensions.dpi
  let splits := ceilDiv totalWidth MAX_PRINTER_WIDTH
  (List.range splits).map (fun splitIndex =>
    let startPos := splitIndex * MAX_PRINTER_WIDTH * height
    let currentWidth := min MAX_PRINTER_WIDTH (totalWidth - splitIndex * MAX_PRINTER_WIDTH)
    { data := (imageData.drop startPos).take (currentWidth * height)
      dimensions := { width := currentWidth, height := height, dpi := dpi }
      splitIndex := splitIndex
      totalSplits := splits })

/-- `PrinterService.sendDataInPackets`: the write trace of the packetizing
loop `for (let i = 0; i < data.length; i += packetSize)`, whose iteration `k`
writes `data.slice(k * packetSize, (k + 1) * packetSize)`. -/
def sendDataInPackets (data : List Nat) (packetSize : Nat) : List (List Nat) :=
  (List.range (ceilDiv data.length packetSize)).map
    (fun k => (data.drop (k * packetSize)).take packetSize)

/-- `PrinterService.sendImageData` / `sendImageSplit`: the sequence of serial
writes produced for a packed image, together with the final value of the
mutable `this.protocol` field.  Each split reassigns the protocol from its own
dimensions, sends `prefix ++ data` in packets, and after the loop the current
protocol's postfix is written as one final write. -/
def sendImageData (initProtocol : PrinterProtocol) (packetSize : Nat)
    (imageData : List Nat) (imageDimensions : ImageDimensions) :
    List (List Nat) × PrinterProtocol :=
  let imageSplits := calculateImageSplits imageData imageDimensions
  let sent := imageSplits.foldl
    (fun (acc : List (List Nat) × PrinterProtocol) split =>
      let protocol := getPrinterProtocol split.dimensions
      let message := protocol.prefixBytes ++ split.data
      (acc.1 ++ sendDataInPackets message packetSize, protocol))
    ([], initProtocol)
  (sent.1 ++ [sent.2.postfixBytes], sent.2)

/-- Partial sums of a size function, used to name the cumulative byte offsets
of consecutive chunks. -/
def partialSum (f : Nat → Nat) : Nat → Nat
  | 0 => 0
  | n + 1 => partialSum f n + f n

/-- Big-endian 16-bit byte pair, written from the spec's words
"encoded big-endian 16-bit". -/
def beBytes16 (n : Nat) : List Nat := [n / 256, n % 256]

/-- The fixed 11-byte command header of the prefix frame. -/
def PREFIX_HEADER : List Nat :=
  [0x10, 0xFF, 0xFE, 0x01, 0x10, 0xFF, 0xFE, 0x40, 0x1D, 0x76, 0x30]

/-- `ImageProcessor.bitArrayToByte`:
`bitArray.reduce((value, bit, index) => bit === 1 ? value | (1 << index) : value, 0)`. -/
def bitArrayToByte (bitArray : List Nat) : Nat :=
  bitArray.enum.foldl
    (fun value ib => if ib.2 = 1 then value ||| (1 <<< ib.1) else value) 0

/-- One iteration of the inner `y` loop of `canvasToImageData`: read the
channel value at `y * stride + x * 4`, compute the bit, `unshift` it onto the
chunk, and flush the chunk into the output once it holds 8 bits. -/
def packStep (pixels : Nat → Nat) (stride x : Nat)
    (st : List Nat × List Nat) (y : Nat) : List Nat × List Nat :=
  let blueValue := pixels (y * stride + x * 4)
  let bit := if blueValue = 0xFF then 0 else 1
  let bitChunk := bit :: st.1
  if bitChunk.length = 8 then ([], st.2 ++ [bitArrayToByte bitChunk])
  else (bitChunk, st.2)

/-- `ImageProcessor.canvasToImageData`: outer loop over `x`, inner loop over
`y` from `height - 1` down to `0` (the reversed range), shared `imageData`
accumulator and a fresh `bitChunk` per column. The raw RGBA buffer is the
function `pixels` from flat byte index to channel value. -/
def canvasToImageData (pixels : Nat → Nat) (stride width height : Nat) : List Nat :=
  (List.range width).foldl
    (fun imageData x =>
      (((List.range height).reverse).foldl (packStep pixels stride x)
        ([], imageData)).2)
    []

/-- `packStep` with the bit value already computed. -/
def chunkStep (st : List Nat × List Nat) (b : Nat) : List Nat × List Nat :=
  let bitChunk := b :: st.1
  if bitChunk.length = 8 then ([], st.2 ++ [bitArrayToByte bitChunk])
  else (bitChunk, st.2)

/-- The bytes that the chunking loop appends when started on chunk state
`chunk` and fed the bit list. -/
def packAux : List Nat → List Nat → List Nat
  | _, [] => []
  | chunk, b :: bs =>
    if (b :: chunk).length = 8 then bitArrayToByte (b :: chunk) :: packAux [] bs
    else packAux (b :: chunk) bs

/-- Modelled from the amended packing description: bit `j` of the `g`-th byte
of column `x` is set iff the pixel at `y = h - 8*(g+1) + j` is not the white
sentinel `0xFF`; so bit 7 holds the first pixel visited in the group (the
bottom-most) and bit 0 the last (the top-most). -/
def packedByteSpec (pixels : Nat → Nat) (stride x h g : Nat) : Nat :=
  ((List.range 8).map (fun j =>
    (if pixels ((h - 8 * (g + 1) + j) * stride + x * 4) = 0xFF then 0 else 1)
      * 2 ^ j)).sum

/-- The whole packed stream described byte by byte: `h / 8` bytes per column,
columns in increasing `x` order. -/
def packedImageSpec (pixels : Nat → Nat) (stride w h : Nat) : List Nat :=
  ((List.range w).map (fun x =>
    (List.range (h / 8)).map (packedByteSpec pixels stride x h))).flatten

/-- JavaScript `String.prototype.replace` with a global literal-pattern
regular expression: scan left to right, replace every non-overlapping
occurrence of `p` by `r`, and resume scanning after the replaced text. -/
def replaceAll (p r : List Char) : List Char → List Char
  | [] => []
  | c :: rest =>
    if h : p ≠ [] ∧ p <+: (c :: rest) then
      r ++ replaceAll p r ((c :: rest).drop p.length)
    else
      c :: replaceAll p r rest
termination_by s => s.length
decreasing_by
  · simp only [List.length_drop, List.length_cons]
    have hp : 0 < p.length := List.length_pos.mpr h.1
    have hle : p.length ≤ rest.length + 1 := by
      have := h.2.length_le
      simpa using this
    omega
  · simp

/-- The double-brace placeholder token built for a variable key, the
translation of the template literal that surrounds `key` with a pair of
opening and a pair of closing curly braces. -/
def placeholderOf (key : List Char) : List Char :=
  '\x7b' :: '\x7b' :: (key ++ ['\x7d', '\x7d'])

/-- `ImageProcessor.processVariables`: if no variables mapping is given the
content is returned unchanged, otherwise the mapping's entries are folded
over the content, each entry globally replacing its placeholder token by the
entry's value string. -/
def processVariables (content : List Char)
    (variablesMap : Option (List (List Char × List Char))) : List Char :=
  match variablesMap with
  | none => content
  | some vars =>
    vars.foldl (fun result kv => replaceAll (placeholderOf kv.1) kv.2 result) content

/-- The sample content "Hello ${name}" of the claim, written as a character
list (dollar-brace placeholder syntax). -/
def helloContentDollar : List Char :=
  ('H' :: 'e' :: 'l' :: 'l' :: 'o' :: ' ' :: '$' :: '\x7b' :: []) ++
    ('n' :: 'a' :: 'm' :: 'e' :: '\x7d' :: [])

/-- The content "Hello " followed by the double-brace placeholder for `name`,
the syntax the renderer actually substitutes. -/
def helloContentBraces : List Char :=
  ('H' :: 'e' :: 'l' :: 'l' :: 'o' :: ' ' :: []) ++
    placeholderOf ('n' :: 'a' :: 'm' :: 'e' :: [])

/-- The expected rendering "Hello Alice". -/
def helloAlice : List Char :=
  'H' :: 'e' :: 'l' :: 'l' :: 'o' :: ' ' :: 'A' :: 'l' :: 'i' :: 'c' :: 'e' :: []

/-- The variables mapping name -> Alice. -/
def aliceVars : List (List Char × List Char) :=
  [('n' :: 'a' :: 'm' :: 'e' :: [], 'A' :: 'l' :: 'i' :: 'c' :: 'e' :: [])]

/-- JavaScript `Math.round`: round half toward positive infinity,
the floor of `q + 1/2` (computable via `Rat.floor`). -/
def jsRound (q : ℚ) : Int := (q + 1 / 2).floor

/-- JavaScript `v || d` on an optional number: `undefined` and `0` give `d`. -/
def jsOrQ (v : Option ℚ) (d : ℚ) : ℚ :=
  match v with
  | none => d
  | some x => if x = 0 then d else x

/-- JavaScript `v || d` on an optional non-negative integer. -/
def jsOrNat (v : Option Nat) (d : Nat) : Nat :=
  match v with
  | none => d
  | some x => if x = 0 then d else x

/-- JavaScript `v || d` on an optional string: `undefined` and `""` give `d`. -/
def jsOrStr (v : Option (List Char)) (d : List Char) : List Char :=
  match v with
  | none => d
  | some s => if s = [] then d else s

/-- Text alignment variants from `TextElement.align`. -/
inductive Align where
  | left
  | center
  | right
deriving DecidableEq, Repr

/-- Stripe direction variants. -/
inductive Direction where
  | horizontal
  | vertical
deriving DecidableEq, Repr

/-- `Position` from `src/src/types/index.ts`. -/
structure Position where
  x : ℚ
  y : ℚ
deriving DecidableEq, Repr

/-- Bounding box used by stripe and grid elements. -/
structure Bounds where
  x : ℚ
  y : ℚ
  width : ℚ
  height : ℚ
deriving DecidableEq, Repr

/-- `TextElement` from `src/src/types/index.ts`. -/
structure TextElement where
  content : List Char
  position : Position
  fontSize : Option ℚ
  fontFamily : Option (List Char)
  align : Option Align
deriving DecidableEq, Repr

/-- `LineElement` from `src/src/types/index.ts`; the source field `end` is a
Lean keyword and is named `stop` here. -/
structure LineElement where
  start : Position
  stop : Position
  width : Option ℚ
deriving DecidableEq, Repr

/-- `RectangleElement` from `src/src/types/index.ts`. -/
structure RectangleElement where
  position : Position
  width : ℚ
  height : ℚ
  filled : Option Bool
deriving DecidableEq, Repr

/-- `CircleElement` from `src/src/types/index.ts`. -/
structure CircleElement where
  center : Position
  radius : ℚ
  filled : Option Bool
deriving DecidableEq, Repr

/-- `StripeElement` from `src/src/types/index.ts`. -/
structure StripeElement where
  direction : Direction
  spacing : ℚ
  width : ℚ
  bounds : Option Bounds
deriving DecidableEq, Repr

/-- `GridElement` from `src/src/types/index.ts`. -/
structure GridElement where
  cellWidth : ℚ
  cellHeight : ℚ
  lineWidth : Option ℚ
  bounds : Option Bounds
deriving DecidableEq, Repr

/-- `RenderElement`: the tagged union of drawing primitives; `unknown` models
a JSON element whose `type` tag is none of the six known ones (the `default`
branch of `renderElement`). -/
inductive RenderElement where
  | text (e : TextElement)
  | line (e : LineElement)
  | rectangle (e : RectangleElement)
  | circle (e : CircleElement)
  | stripes (e : StripeElement)
  | grid (e : GridElement)
  | unknown (tag : List Char)
deriving DecidableEq, Repr

/-- Template-level dimension override. -/
structure TemplateDimensions where
  width : Option Nat
  height : Option Nat
deriving DecidableEq, Repr

/-- Template-level default font. -/
structure DefaultFont where
  family : List Char
  size : ℚ
deriving DecidableEq, Repr

/-- `RenderTemplate` from `src/src/types/index.ts`. -/
structure RenderTemplate where
  name : List Char
  description : Option (List Char)
  dimensions : Option TemplateDimensions
  defaultFont : Option DefaultFont
  elements : List RenderElement
deriving DecidableEq, Repr

/-- `PrintOptions` from `src/src/types/index.ts`. -/
structure PrintOptions where
  firstLine : List Char
  secondLine : List Char
  thirdLine : Option (List Char)
  fontSize : ℚ
  fontFamily : List Char
deriving DecidableEq, Repr

/-- `CanvasConfig` from `src/src/utils/imageProcessor.ts`. -/
structure CanvasConfig where
  width : Nat
  height : Nat
  scaleFactor : ℚ
  adjustedFontSize : Int
deriving DecidableEq, Repr

/-- `ImageProcessor.getCanvasConfig`: `scaleFactor = dpi / 96`,
`width = this.dimensions.width || 0xE3`, `height = height * 8` (the
`HEIGHT_MULTIPLIER`), `adjustedFontSize = Math.round(fontSize * scaleFactor)`. -/
def getCanvasConfig (dimensions : ImageDimensions) (options : PrintOptions) :
    CanvasConfig :=
  let scaleFactor : ℚ := (dimensions.dpi : ℚ) / 96
  { width := if dimensions.width = 0 then 0xE3 else dimensions.width
    height := dimensions.height * 8
    scaleFactor := scaleFactor
    adjustedFontSize := jsRound (options.fontSize * scaleFactor) }

/-- Primitive canvas drawing operations issued by the per-element render
routines. -/
inductive CanvasOp where
  | fillText (content : List Char) (x y : Int) (fontSize : Int)
      (fontFamily : List Char) (align : Align)
  | strokeLine (x1 y1 x2 y2 : Int) (lineWidth : ℚ)
  | fillRect (x y w h : Int)
  | strokeRect (x y w h : Int)
  | arc (cx cy radius : Int) (filled : Bool)
deriving DecidableEq, Repr

/-- The string "Arial". -/
def arial : List Char := 'A' :: 'r' :: 'i' :: 'a' :: 'l' :: []

/-- Integer bounds after scaling-and-rounding (or the full canvas). -/
structure IntBounds where
  x : Int
  y : Int
  width : Int
  height : Int
deriving DecidableEq, Repr

/-- The bounds resolution shared by stripe and grid rendering: a declared
bounding box is scaled and rounded componentwise, a missing one defaults to
the full canvas. -/
def resolveBounds (b : Option Bounds) (config : CanvasConfig) : IntBounds :=
  match b with
  | some b =>
    { x := jsRound (b.x * config.scaleFactor)
      y := jsRound (b.y * config.scaleFactor)
      width := jsRound (b.width * config.scaleFactor)
      height := jsRound (b.height * config.scaleFactor) }
  | none => { x := 0, y := 0, width := (config.width : Int), height := (config.height : Int) }

/-- Values taken by `for (v = start; v < bound; v += step)`.  For `step <= 0`
and `bound > start` the source loop never terminates; that degenerate case is
modelled as the empty list. -/
def loopValsLt (start bound step : Int) : List Int :=
  (List.range (if step ≤ 0 then 0 else ceilDiv (bound - start).toNat step.toNat)).map
    (fun k => start + k * step)

/-- Values taken by `for (v = start; v <= bound; v += step)`, with the same
degenerate-case convention as `loopValsLt`. -/
def loopValsLe (start bound step : Int) : List Int :=
  (List.range (if step ≤ 0 then 0 else
    if bound < start then 0 else (bound - start).toNat / step.toNat + 1)).map
    (fun k => start + k * step)

/-- `ImageProcessor.renderTextElement`: substitute variables, pick the scaled
font size (element override when truthy, else the config's adjusted size),
the font family (element override or Arial), scale the position, draw. -/
def renderTextElement (e : TextElement) (config : CanvasConfig)
    (variablesMap : Option (List (List Char × List Char))) : List CanvasOp :=
  let content := processVariables e.content variablesMap
  let fontSize := match e.fontSize with
    | some fs => if fs = 0 then config.adjustedFontSize
                 else jsRound (fs * config.scaleFactor)
    | none => config.adjustedFontSize
  let fontFamily := jsOrStr e.fontFamily arial
  let x := jsRound (e.position.x * config.scaleFactor)
  let y := jsRound (e.position.y * config.scaleFactor)
  [CanvasOp.fillText content x y fontSize fontFamily (e.align.getD Align.left)]

/-- `ImageProcessor.renderLineElement`: `ctx.lineWidth = element.width || 1`
(unscaled), endpoints scaled and rounded, one stroked segment. -/
def renderLineElement (e : LineElement) (config : CanvasConfig) : List CanvasOp :=
  [CanvasOp.strokeLine
    (jsRound (e.start.x * config.scaleFactor)) (jsRound (e.start.y * config.scaleFactor))
    (jsRound (e.stop.x * config.scaleFactor)) (jsRound (e.stop.y * config.scaleFactor))
    (jsOrQ e.width 1)]

/-- `ImageProcessor.renderRectangleElement`. -/
def renderRectangleElement (e : RectangleElement) (config : CanvasConfig) :
    List CanvasOp :=
  let x := jsRound (e.position.x * config.scaleFactor)
  let y := jsRound (e.position.y * config.scaleFactor)
  let w := jsRound (e.width * config.scaleFactor)
  let h := jsRound (e.height * config.scaleFactor)
  if e.filled.getD false then [CanvasOp.fillRect x y w h]
  else [CanvasOp.strokeRect x y w h]

/-- `ImageProcessor.renderCircleElement`. -/
def renderCircleElement (e : CircleElement) (config : CanvasConfig) : List CanvasOp :=
  [CanvasOp.arc
    (jsRound (e.center.x * config.scaleFactor)) (jsRound (e.center.y * config.scaleFactor))
    (jsRound (e.radius * config.scaleFactor)) (e.filled.getD false)]

/-- `ImageProcessor.renderStripeElement`: bars every `spacing` pixels along
the chosen axis, the last bar truncated to the bounds edge. -/
def renderStripeElement (e : StripeElement) (config : CanvasConfig) : List CanvasOp :=
  let b := resolveBounds e.bounds config
  let spacing := jsRound (e.spacing * config.scaleFactor)
  let stripeWidth := jsRound (e.width * config.scaleFactor)
  match e.direction with
  | Direction.horizontal =>
    (loopValsLt b.y (b.y + b.height) spacing).map
      (fun y => CanvasOp.fillRect b.x y b.width (min stripeWidth (b.y + b.height - y)))
  | Direction.vertical =>
    (loopValsLt b.x (b.x + b.width) spacing).map
      (fun x => CanvasOp.fillRect x b.y (min stripeWidth (b.x + b.width - x)) b.height)

/-- `ImageProcessor.renderGridElement`: `ctx.lineWidth = element.lineWidth || 1`
(unscaled); vertical then horizontal rule lines every scaled cell size,
inclusive of the final boundary line. -/
def renderGridElement (e : GridElement) (config : CanvasConfig) : List CanvasOp :=
  let lineWidth := jsOrQ e.lineWidth 1
  let b := resolveBounds e.bounds config
  let cellWidth := jsRound (e.cellWidth * config.scaleFactor)
  let cellHeight := jsRound (e.cellHeight * config.scaleFactor)
  ((loopValsLe b.x (b.x + b.width) cellWidth).map
    (fun x => CanvasOp.strokeLine x b.y x (b.y + b.height) lineWidth)) ++
  ((loopValsLe b.y (b.y + b.height) cellHeight).map
    (fun y => CanvasOp.strokeLine b.x y (b.x + b.width) y lineWidth))

/-- `ImageProcessor.renderElement`: dispatch on the type tag; the `default`
branch logs one error and draws nothing.  The second component counts logged
errors. -/
def renderElement (config : CanvasConfig)
    (variablesMap : Option (List (List Char × List Char))) :
    RenderElement → List CanvasOp × Nat
  | RenderElement.text e => (renderTextElement e config variablesMap, 0)
  | RenderElement.line e => (renderLineElement e config, 0)
  | RenderElement.rectangle e => (renderRectangleElement e config, 0)
  | RenderElement.circle e => (renderCircleElement e config, 0)
  | RenderElement.stripes e => (renderStripeElement e config, 0)
  | RenderElement.grid e => (renderGridElement e config, 0)
  | RenderElement.unknown _ => ([], 1)

/-- One step of the template's element loop. -/
def renderStep (config : CanvasConfig)
    (variablesMap : Option (List (List Char × List Char)))
    (acc : List CanvasOp × Nat) (el : RenderElement) : List CanvasOp × Nat :=
  let r := renderElement config variablesMap el
  (acc.1 ++ r.1, acc.2 + r.2)

/-- `ImageProcessor.renderFromTemplate`: render the elements in sequence
order.  The source wraps each element in try/catch and continues; all
modelled renderers are total, so the only per-element error report is the
unknown-type one counted by `renderElement`. -/
def renderFromTemplate (config : CanvasConfig) (template : RenderTemplate)
    (variablesMap : Option (List (List Char × List Char))) : List CanvasOp × Nat :=
  template.elements.foldl (renderStep config variablesMap) ([], 0)

/-- The dimension merge at the top of `createImageFromJson`:
`{...this.dimensions, ...(template.dimensions && {width: template.dimensions.width
|| this.dimensions.width, height: template.dimensions.height || this.dimensions.height})}`. -/
def effectiveDimensions (base : ImageDimensions) (template : RenderTemplate) :
    ImageDimensions :=
  match template.dimensions with
  | none => base
  | some td =>
    { width := jsOrNat td.width base.width
      height := jsOrNat td.height base.height
      dpi := base.dpi }

/-- The dummy print options `createImageFromJson` builds for canvas setup:
`fontSize: template.defaultFont?.size || 12`,
`fontFamily: template.defaultFont?.family || 'Arial'`. -/
def dummyOptions (template : RenderTemplate) : PrintOptions :=
  { firstLine := []
    secondLine := []
    thirdLine := none
    fontSize := match template.defaultFont with
      | some f => if f.size = 0 then 12 else f.size
      | none => 12
    fontFamily := match template.defaultFont with
      | some f => if f.family = [] then arial else f.family
      | none => arial }

/-- The canvas configuration `createImageFromJson` sets up: the effective
dimensions are computed first, then `getCanvasConfig` runs on them. -/
def createImageConfig (base : ImageDimensions) (template : RenderTemplate) :
    CanvasConfig :=
  getCanvasConfig (effectiveDimensions base template) (dummyOptions template)

/-- The pixel-surface size `createCanvas(config.width, config.height)` gets
inside `createImageFromJson`. -/
def createImageCanvasSize (base : ImageDimensions) (template : RenderTemplate) :
    Nat × Nat :=
  ((createImageConfig base template).width, (createImageConfig base template).height)

/-- Modelled from the claim's words: the effective width is "the template's
dimensions override when the override field is present and non-zero, and
otherwise the base dimensions' width". -/
def claimedEffectiveWidth (base : ImageDimensions) (template : RenderTemplate) : Nat :=
  match template.dimensions with
  | some td => match td.width with
    | some w => if w ≠ 0 then w else base.width
    | none => base.width
  | none => base.width

/-- Modelled from the claim's words: the height analogue of
`claimedEffectiveWidth`. -/
def claimedEffectiveHeight (base : ImageDimensions) (template : RenderTemplate) : Nat :=
  match template.dimensions with
  | some td => match td.height with
    | some h => if h ≠ 0 then h else base.height
    | none => base.height
  | none => base.height

/-- The stroke width carried by a drawing operation, when it has one. -/
def opLineWidth : CanvasOp → Option ℚ
  | CanvasOp.strokeLine _ _ _ _ lw => some lw
  | _ => none

/-- A sample print options record for concrete configurations. -/
def optsEx : PrintOptions :=
  { firstLine := [], secondLine := [], thirdLine := none
    fontSize := 12, fontFamily := arial }

/-- The canvas configuration for 384 x 25 modules at 203 DPI. -/
def cfgEx : CanvasConfig := getCanvasConfig ⟨384, 25, 203⟩ optsEx

/-- A line declared from (0,0) to (10,0) with stroke width 2. -/
def lineEx : LineElement := { start := ⟨0, 0⟩, stop := ⟨10, 0⟩, width := some 2 }

/-- A 10 x 10 grid with declared lineWidth 2 on a 10 x 10 bounding box. -/
def gridEx : GridElement :=
  { cellWidth := 10, cellHeight := 10, lineWidth := some 2
    bounds := some ⟨0, 0, 10, 10⟩ }

/-- A degenerate configuration whose canvas is empty, so grid bounds resolve
to all zeroes without any rounding arithmetic. -/
def cfgW : CanvasConfig :=
  { width := 0, height := 0, scaleFactor := 1, adjustedFontSize := 0 }

/-- A grid with declared lineWidth 2 and no explicit bounds. -/
def gridW : GridElement :=
  { cellWidth := 1, cellHeight := 1, lineWidth := some 2, bounds := none }

/-- A template holding one valid line element followed by one unknown-type
element. -/
def tmplWithUnknown : RenderTemplate :=
  { name := 't' :: [], description := none, dimensions := none
    defaultFont := none
    elements := [RenderElement.line lineEx, RenderElement.unknown ('z' :: [])] }

/-- A template with no dimension override. -/
def tmplNoDims : RenderTemplate :=
  { name := 't' :: [], description := none, dimensions := none
    defaultFont := none, elements := [] }

/-! ## Theorems -/

/-! ### Arithmetic and list helper lemmas -/

theorem ceilDiv_mul_ge (W M : Nat) (hM : 0 < M) : W ≤ ceilDiv W M * M := by
  by_contra h
  push_neg at h
  have h1 : (ceilDiv W M + 1) * M ≤ W + M - 1 := by
    have hexp : (ceilDiv W M + 1) * M = ceilDiv W M * M + M := by ring
    omega
  have h2 : ceilDiv W M + 1 ≤ (W + M - 1) / M := (Nat.le_div_iff_mul_le hM).mpr h1
  have h3 : (W + M - 1) / M = ceilDiv W M := rfl
  omega

theorem ceilDiv_pred_mul_lt (W M : Nat) (hM : 0 < M) (hW : 0 < W) :
    (ceilDiv W M - 1) * M < W := by
  have hd : (W + M - 1) / M * M ≤ W + M - 1 := Nat.div_mul_le_self _ _
  have hpos : 0 < ceilDiv W M := by
    have : W ≤ ceilDiv W M * M := ceilDiv_mul_ge W M hM
    rcases Nat.eq_zero_or_pos (ceilDiv W M) with h0 | h0
    · rw [h0] at this; omega
    · exact h0
  have : (ceilDiv W M - 1) * M = ceilDiv W M * M - M := by
    cases' Nat.exists_eq_add_of_le hpos with k hk
    have hk' : ceilDiv W M = k + 1 := by omega
    rw [hk']
    simp [Nat.succ_mul]
  have h2 : ceilDiv W M * M = (W + M - 1) / M * M := rfl
  omega

theorem sum_range_map (f : Nat → Nat) (n : Nat) :
    ((List.range n).map f).sum = partialSum f n := by
  induction n with
  | zero => rfl
  | succ n ih =>
    rw [List.range_succ, List.map_append, List.sum_append, ih]
    simp [partialSum]

theorem partialSum_min (M W n : Nat) :
    partialSum (fun i => min M (W - i * M)) n = min (n * M) W := by
  induction n with
  | zero => simp [partialSum]
  | succ n ih =>
    rw [partialSum, ih]
    have : (n + 1) * M = n * M + M := by ring
    omega

/-- Concatenating chunks taken at consecutive cumulative offsets of a list
rebuilds its prefix up to the total size. -/
theorem flatten_chunks {α : Type} (l : List α) (f : Nat → Nat) (n : Nat) :
    ((List.range n).map (fun i => (l.drop (partialSum f i)).take (f i))).flatten
      = l.take (partialSum f n) := by
  induction n with
  | zero => simp [partialSum]
  | succ n ih =>
    rw [List.range_succ, List.map_append, List.flatten_append, ih]
    simp [partialSum, List.take_add]

theorem map_congr_range {α : Type} (f g : Nat → α) (n : Nat)
    (h : ∀ i, i < n → f i = g i) :
    (List.range n).map f = (List.range n).map g := by
  apply List.map_congr_left
  intro i hi
  exact h i (List.mem_range.mp hi)

/-! ### C1: splitting correctness -/

/-- C1. For every packed byte sequence of length `width * height` with
`width > 255`, `calculateImageSplits` produces `ceil(width/255)` splits whose
widths sum to `width`, whose byte ranges concatenate back to the original
sequence, and where split `i` covers the contiguous range starting at
`i*255*height` with length `min 255 (width - i*255) * height`. -/
theorem calculateImageSplits_correct (imageData : List Nat) (d : ImageDimensions)
    (hlen : imageData.length = d.width * d.height) (hw : 255 < d.width) :
    (calculateImageSplits imageData d).length = ceilDiv d.width 255 ∧
    ((calculateImageSplits imageData d).map (fun s => s.dimensions.width)).sum = d.width ∧
    ((calculateImageSplits imageData d).map (fun s => s.data)).flatten = imageData ∧
    (∀ i, i < ceilDiv d.width 255 →
      ((calculateImageSplits imageData d).getD i ⟨[], d, 0, 0⟩).data
        = (imageData.drop (i * 255 * d.height)).take
            (min 255 (d.width - i * 255) * d.height)) := by
  have hM : (0 : Nat) < 255 := by norm_num
  have hW : 0 < d.width := by omega
  refine ⟨?_, ?_, ?_, ?_⟩
  · simp [calculateImageSplits, MAX_PRINTER_WIDTH]
  · rw [calculateImageSplits]
    simp only [List.map_map]
    have : ((List.range (ceilDiv d.width MAX_PRINTER_WIDTH)).map
        (fun i => min MAX_PRINTER_WIDTH (d.width - i * MAX_PRINTER_WIDTH))).sum = d.width := by
      rw [sum_range_map, partialSum_min]
      have := ceilDiv_mul_ge d.width MAX_PRINTER_WIDTH hM
      simp [MAX_PRINTER_WIDTH] at this ⊢
      omega
    simpa [Function.comp, MAX_PRINTER_WIDTH, Nat.mul_comm] using this
  · rw [calculateImageSplits]
    simp only [List.map_map]
    have hfun : ((List.range (ceilDiv d.width MAX_PRINTER_WIDTH)).map
        (fun i => (imageData.drop (i * MAX_PRINTER_WIDTH * d.height)).take
          (min MAX_PRINTER_WIDTH (d.width - i * MAX_PRINTER_WIDTH) * d.height))).flatten
          = imageData := by
      have hcong : ∀ i, i < ceilDiv d.width MAX_PRINTER_WIDTH →
          (imageData.drop (i * MAX_PRINTER_WIDTH * d.height)).take
              (min MAX_PRINTER_WIDTH (d.width - i * MAX_PRINTER_WIDTH) * d.height)
            = (imageData.drop
                (partialSum (fun j => min MAX_PRINTER_WIDTH (d.width - j * MAX_PRINTER_WIDTH)
                  * d.height) i)).take
              ((fun j => min MAX_PRINTER_WIDTH (d.width - j * MAX_PRINTER_WIDTH) * d.height) i) := by
        intro i hi
        have hps : partialSum (fun j => min MAX_PRINTER_WIDTH (d.width - j * MAX_PRINTER_WIDTH)
            * d.height) i = min (i * MAX_PRINTER_WIDTH) d.width * d.height := by
          have hfactor : ∀ m, partialSum (fun j => (fun j' => min MAX_PRINTER_WIDTH
              (d.width - j' * MAX_PRINTER_WIDTH)) j * d.height) m
              = partialSum (fun j => min MAX_PRINTER_WIDTH (d.width - j * MAX_PRINTER_WIDTH)) m
                * d.height := by
            intro m
            induction m with
            | zero => simp [partialSum]
            | succ m ih => rw [partialSum, partialSum, ih]; ring
          rw [hfactor, partialSum_min]
        have hmin : min (i * MAX_PRINTER_WIDTH) d.width = i * MAX_PRINTER_WIDTH := by
          have hlt := ceilDiv_pred_mul_lt d.width MAX_PRINTER_WIDTH hM hW
          have hi' : i ≤ ceilDiv d.width MAX_PRINTER_WIDTH - 1 := by omega
          have : i * MAX_PRINTER_WIDTH ≤ (ceilDiv d.width MAX_PRINTER_WIDTH - 1)
              * MAX_PRINTER_WIDTH := Nat.mul_le_mul_right _ hi'
          omega
        rw [hps, hmin]
      rw [map_congr_range _ _ _ hcong, flatten_chunks]
      have hps : partialSum (fun j => min MAX_PRINTER_WIDTH (d.width - j * MAX_PRINTER_WIDTH)
          * d.height) (ceilDiv d.width MAX_PRINTER_WIDTH)
          = min (ceilDiv d.width MAX_PRINTER_WIDTH * MAX_PRINTER_WIDTH) d.width * d.height := by
        have hfactor : ∀ m, partialSum (fun j => min MAX_PRINTER_WIDTH
            (d.width - j * MAX_PRINTER_WIDTH) * d.height) m
            = partialSum (fun j => min MAX_PRINTER_WIDTH (d.width - j * MAX_PRINTER_WIDTH)) m
              * d.height := by
          intro m
          induction m with
          | zero => simp [partialSum]
          | succ m ih => rw [partialSum, partialSum, ih]; ring
        rw [hfactor, partialSum_min]
      rw [hps]
      have hge := ceilDiv_mul_ge d.width MAX_PRINTER_WIDTH hM
      have hmin : min (ceilDiv d.width MAX_PRINTER_WIDTH * MAX_PRINTER_WIDTH) d.width
          = d.width := by omega
      rw [hmin, ← hlen, List.take_length]
    simpa [Function.comp] using hfun
  · intro i hi
    rw [calculateImageSplits]
    simp only
    rw [List.getD_eq_getElem?_getD, List.getElem?_map, List.getElem?_range
      (by simpa [MAX_PRINTER_WIDTH] using hi)]
    simp [MAX_PRINTER_WIDTH]

theorem calculateImageSplits_correct_witness :
    ((List.range 256).map (fun x => x % 251)).length = (256 : Nat) * 1 ∧ 255 < 256 ∧
    (((calculateImageSplits ((List.range 256).map (fun x => x % 251))
      ⟨256, 1, 96⟩).map (fun s => s.data)).flatten
        = (List.range 256).map (fun x => x % 251)) := by
  refine ⟨by simp, by norm_num, ?_⟩
  exact (calculateImageSplits_correct ((List.range 256).map (fun x => x % 251))
    ⟨256, 1, 96⟩ (by simp) (by norm_num)).2.2.1

/-! ### C3: packetization correctness -/

theorem partialSum_const (P n : Nat) : partialSum (fun _ => P) n = n * P := by
  induction n with
  | zero => simp [partialSum]
  | succ n ih => rw [partialSum, ih]; ring

theorem ceilDiv_pos (L P : Nat) (hP : 0 < P) (hL : 0 < L) : 0 < ceilDiv L P := by
  have hge := ceilDiv_mul_ge L P hP
  rcases Nat.eq_zero_or_pos (ceilDiv L P) with h0 | h0
  · rw [h0] at hge; simp at hge; omega
  · exact h0

theorem ceilDiv_last (L P : Nat) (hP : 0 < P) (hL : 0 < L) :
    L - (ceilDiv L P - 1) * P = if L % P = 0 then P else L % P := by
  have hlt := ceilDiv_pred_mul_lt L P hP hL
  have hge := ceilDiv_mul_ge L P hP
  have hpos := ceilDiv_pos L P hP hL
  have hstep : ceilDiv L P * P = (ceilDiv L P - 1) * P + P := by
    cases' Nat.exists_eq_add_of_le hpos with k hk
    have hk' : ceilDiv L P = k + 1 := by omega
    rw [hk']
    simp [Nat.succ_mul]
  have hL' : L = (L - (ceilDiv L P - 1) * P) + (ceilDiv L P - 1) * P := by omega
  have hmod : L % P = (L - (ceilDiv L P - 1) * P) % P := by
    conv_lhs => rw [hL']
    exact Nat.add_mul_mod_self_right _ _ _
  by_cases hcase : L - (ceilDiv L P - 1) * P = P
  · rw [hmod, hcase, Nat.mod_self]
    simp [hcase]
  · have hlt2 : L - (ceilDiv L P - 1) * P < P := by omega
    rw [hmod, Nat.mod_eq_of_lt hlt2]
    have hne : ¬(L - (ceilDiv L P - 1) * P = 0) := by omega
    simp [hne]

/-- C3. For every message byte list and every packet size `P > 0`,
`sendDataInPackets` performs exactly `ceil(L/P)` writes, their concatenation
reconstructs the message, all but the last have length `P`, and (when the
message is non-empty) the last has length `L % P`, or `P` when `P ∣ L`. -/
theorem sendDataInPackets_correct (data : List Nat) (P : Nat) (hP : 0 < P) :
    (sendDataInPackets data P).length = ceilDiv data.length P ∧
    (sendDataInPackets data P).flatten = data ∧
    (∀ k, k + 1 < ceilDiv data.length P →
      ((sendDataInPackets data P).getD k []).length = P) ∧
    (0 < data.length →
      ((sendDataInPackets data P).getD (ceilDiv data.length P - 1) []).length
        = if data.length % P = 0 then P else data.length % P) := by
  refine ⟨?_, ?_, ?_, ?_⟩
  · simp [sendDataInPackets]
  · rw [sendDataInPackets]
    have hcong : ∀ k, k < ceilDiv data.length P →
        (data.drop (k * P)).take P
          = (data.drop (partialSum (fun _ => P) k)).take ((fun _ => P) k) := by
      intro k _
      rw [partialSum_const]
    rw [map_congr_range _ _ _ hcong, flatten_chunks, partialSum_const]
    have hge := ceilDiv_mul_ge data.length P hP
    exact List.take_of_length_le hge
  · intro k hk
    have hL : 0 < data.length := by
      by_contra h
      push_neg at h
      have h0 : data.length = 0 := by omega
      rw [h0] at hk
      have hz : ceilDiv 0 P = 0 := by
        unfold ceilDiv
        exact Nat.div_eq_of_lt (by omega)
      omega
    rw [sendDataInPackets, List.getD_eq_getElem?_getD, List.getElem?_map,
      List.getElem?_range (by omega)]
    simp only [Option.map_some', Option.getD_some, List.length_take, List.length_drop]
    have hlt := ceilDiv_pred_mul_lt data.length P hP hL
    have hk' : k + 1 ≤ ceilDiv data.length P - 1 := by omega
    have hmul : (k + 1) * P ≤ (ceilDiv data.length P - 1) * P :=
      Nat.mul_le_mul_right _ hk'
    have hexp : (k + 1) * P = k * P + P := by ring
    omega
  · intro hL
    have hpos := ceilDiv_pos data.length P hP hL
    rw [sendDataInPackets, List.getD_eq_getElem?_getD, List.getElem?_map,
      List.getElem?_range (by omega)]
    simp only [Option.map_some', Option.getD_some, List.length_take, List.length_drop]
    have hlt := ceilDiv_pred_mul_lt data.length P hP hL
    have hge := ceilDiv_mul_ge data.length P hP
    have hstep : ceilDiv data.length P * P = (ceilDiv data.length P - 1) * P + P := by
      cases' Nat.exists_eq_add_of_le hpos with k hk
      have hk' : ceilDiv data.length P = k + 1 := by omega
      rw [hk']
      simp [Nat.succ_mul]
    have hlast := ceilDiv_last data.length P hP hL
    omega

theorem sendDataInPackets_correct_witness :
    (0 : Nat) < 2 ∧ (sendDataInPackets (List.range 5) 2).flatten = List.range 5 :=
  ⟨by norm_num, (sendDataInPackets_correct (List.range 5) 2 (by norm_num)).2.1⟩

/-! ### C4: protocol framing layout -/

/-- C4. For dimensions with 16-bit height and width, `getPrinterProtocol`
returns the fixed 4-byte firmware request, an 11-byte fixed header followed by
the big-endian 16-bit height, the big-endian 16-bit width and one trailing
zero (16 bytes total), and the fixed 7-byte postfix; the firmware request and
postfix do not depend on the dimensions. -/
theorem getPrinterProtocol_layout (d : ImageDimensions)
    (hh : d.height < 65536) (hw : d.width < 65536) :
    (getPrinterProtocol d).firmwareRequest = [0x10, 0xFF, 0x20, 0xF1] ∧
    (getPrinterProtocol d).firmwareRequest.length = 4 ∧
    (getPrinterProtocol d).prefixBytes
      = PREFIX_HEADER ++ beBytes16 d.height ++ beBytes16 d.width ++ [0] ∧
    PREFIX_HEADER.length = 11 ∧
    (getPrinterProtocol d).prefixBytes.length = 16 ∧
    (getPrinterProtocol d).postfixBytes = [0x1B, 0x4A, 0x40, 0x10, 0xFF, 0xFE, 0x45] ∧
    (getPrinterProtocol d).postfixBytes.length = 7 := by
  have hshift : ∀ n : Nat, n >>> 8 = n / 256 := by
    intro n
    rw [Nat.shiftRight_eq_div_pow]
  have hmask : ∀ n : Nat, n &&& 0xFF = n % 256 := by
    intro n
    have h255 : (0xFF : Nat) = 2 ^ 8 - 1 := by norm_num
    rw [h255, Nat.and_pow_two_sub_one_eq_mod]
  refine ⟨rfl, rfl, ?_, rfl, rfl, rfl, rfl⟩
  simp [getPrinterProtocol, PREFIX_HEADER, beBytes16, hshift, hmask]

theorem getPrinterProtocol_layout_witness :
    (17 : Nat) < 65536 ∧ (227 : Nat) < 65536 ∧
    (getPrinterProtocol ⟨227, 17, 203⟩).prefixBytes
      = PREFIX_HEADER ++ beBytes16 17 ++ beBytes16 227 ++ [0] :=
  ⟨by norm_num, by norm_num,
    (getPrinterProtocol_layout ⟨227, 17, 203⟩ (by norm_num) (by norm_num)).2.2.1⟩

/-! ### C10: the firmware request and postfix are dimension-independent -/

/-- C10. `getPrinterProtocol` yields the same firmware request and the same
postfix for any two dimension values — only the prefix depends on dimensions —
and hence the final write emitted by `sendImageData` (the postfix written
after the last split) is the same fixed byte sequence no matter how often the
mutable protocol field was recomputed with per-split dimensions. -/
theorem getPrinterProtocol_constant_parts (d1 d2 : ImageDimensions) :
    (getPrinterProtocol d1).firmwareRequest = (getPrinterProtocol d2).firmwareRequest ∧
    (getPrinterProtocol d1).postfixBytes = (getPrinterProtocol d2).postfixBytes ∧
    (∀ (d0 : ImageDimensions) (packetSize : Nat) (imageData : List Nat)
      (dims : ImageDimensions),
      ((sendImageData (getPrinterProtocol d0) packetSize imageData dims).1).getLast?
        = some [0x1B, 0x4A, 0x40, 0x10, 0xFF, 0xFE, 0x45]) := by
  refine ⟨rfl, rfl, ?_⟩
  intro d0 packetSize imageData dims
  rw [sendImageData]
  simp only []
  rw [List.getLast?_concat]
  have hinv : ∀ (l : List ImageSplit) (acc : List (List Nat) × PrinterProtocol),
      acc.2.postfixBytes = [0x1B, 0x4A, 0x40, 0x10, 0xFF, 0xFE, 0x45] →
      (l.foldl (fun (acc : List (List Nat) × PrinterProtocol) split =>
        let protocol := getPrinterProtocol split.dimensions
        let message := protocol.prefixBytes ++ split.data
        (acc.1 ++ sendDataInPackets message packetSize, protocol)) acc).2.postfixBytes
        = [0x1B, 0x4A, 0x40, 0x10, 0xFF, 0xFE, 0x45] := by
    intro l
    induction l with
    | nil => intro acc h; exact h
    | cons s rest ih =>
      intro acc h
      rw [List.foldl_cons]
      exact ih _ rfl
  rw [hinv _ _ rfl]

/-! ### Bitmap packer: `bitArrayToByte` and `canvasToImageData` -/

theorem packStep_eq_chunkStep (pixels : Nat → Nat) (stride x : Nat)
    (st : List Nat × List Nat) (y : Nat) :
    packStep pixels stride x st y
      = chunkStep st (if pixels (y * stride + x * 4) = 0xFF then 0 else 1) := rfl

theorem foldl_chunkStep_out (bs : List Nat) :
    ∀ (chunk out : List Nat),
      (bs.foldl chunkStep (chunk, out)).2 = out ++ packAux chunk bs := by
  induction bs with
  | nil => intro chunk out; simp [packAux]
  | cons b bs ih =>
    intro chunk out
    rw [List.foldl_cons]
    by_cases h : (b :: chunk).length = 8
    · rw [show chunkStep (chunk, out) b
          = ([], out ++ [bitArrayToByte (b :: chunk)]) by simp [chunkStep, h]]
      rw [ih, packAux, if_pos h]
      simp
    · have h' : ¬(chunk.length + 1 = 8) := by
        simp only [List.length_cons] at h
        omega
      rw [show chunkStep (chunk, out) b = (b :: chunk, out) by
        simp only [chunkStep, List.length_cons]
        rw [if_neg h']]
      rw [ih]
      conv_rhs => rw [packAux]
      simp only [List.length_cons, if_neg h']

theorem packAux_short (bs : List Nat) :
    ∀ chunk : List Nat, chunk.length + bs.length < 8 → packAux chunk bs = [] := by
  induction bs with
  | nil => intro chunk _; rfl
  | cons b bs ih =>
    intro chunk h
    rw [packAux]
    have hne : ¬((b :: chunk).length = 8) := by
      simp only [List.length_cons]
      simp at h
      omega
    rw [if_neg hne]
    apply ih
    simp at h ⊢
    omega

theorem packAux_group (b0 b1 b2 b3 b4 b5 b6 b7 : Nat) (rest : List Nat) :
    packAux [] (b0 :: b1 :: b2 :: b3 :: b4 :: b5 :: b6 :: b7 :: rest)
      = bitArrayToByte [b7, b6, b5, b4, b3, b2, b1, b0] :: packAux [] rest := rfl

theorem range_reverse_succ (n : Nat) :
    (List.range (n + 1)).reverse = n :: (List.range n).reverse := by
  rw [List.range_succ]
  simp

theorem range_reverse_add8 (n : Nat) :
    (List.range (n + 8)).reverse
      = (n+7) :: (n+6) :: (n+5) :: (n+4) :: (n+3) :: (n+2) :: (n+1) :: n ::
        (List.range n).reverse := by
  have h8 : n + 8 = (n + 7) + 1 := by omega
  have h7 : n + 7 = (n + 6) + 1 := by omega
  have h6 : n + 6 = (n + 5) + 1 := by omega
  have h5 : n + 5 = (n + 4) + 1 := by omega
  have h4 : n + 4 = (n + 3) + 1 := by omega
  have h3 : n + 3 = (n + 2) + 1 := by omega
  have h2 : n + 2 = (n + 1) + 1 := by omega
  rw [h8, range_reverse_succ, h7, range_reverse_succ, h6, range_reverse_succ,
    h5, range_reverse_succ, h4, range_reverse_succ, h3, range_reverse_succ,
    h2, range_reverse_succ, range_reverse_succ]

theorem bitArrayToByte_eight (b0 b1 b2 b3 b4 b5 b6 b7 : Nat)
    (h0 : b0 ≤ 1) (h1 : b1 ≤ 1) (h2 : b2 ≤ 1) (h3 : b3 ≤ 1)
    (h4 : b4 ≤ 1) (h5 : b5 ≤ 1) (h6 : b6 ≤ 1) (h7 : b7 ≤ 1) :
    bitArrayToByte [b0, b1, b2, b3, b4, b5, b6, b7]
      = b0 + 2*b1 + 4*b2 + 8*b3 + 16*b4 + 32*b5 + 64*b6 + 128*b7 := by
  have e0 : b0 = 0 ∨ b0 = 1 := by omega
  have e1 : b1 = 0 ∨ b1 = 1 := by omega
  have e2 : b2 = 0 ∨ b2 = 1 := by omega
  have e3 : b3 = 0 ∨ b3 = 1 := by omega
  have e4 : b4 = 0 ∨ b4 = 1 := by omega
  have e5 : b5 = 0 ∨ b5 = 1 := by omega
  have e6 : b6 = 0 ∨ b6 = 1 := by omega
  have e7 : b7 = 0 ∨ b7 = 1 := by omega
  rcases e0 with rfl | rfl <;> rcases e1 with rfl | rfl <;>
    rcases e2 with rfl | rfl <;> rcases e3 with rfl | rfl <;>
    rcases e4 with rfl | rfl <;> rcases e5 with rfl | rfl <;>
    rcases e6 with rfl | rfl <;> rcases e7 with rfl | rfl <;> rfl

theorem map_range8_eq (u : Nat → Nat) :
    (List.range 8).map u = [u 0, u 1, u 2, u 3, u 4, u 5, u 6, u 7] := rfl

theorem packAux_column (f : Nat → Nat) (r : Nat) (hr : r < 8) :
    ∀ q, packAux [] (((List.range (8 * q + r)).reverse).map f)
      = (List.range q).map (fun g =>
          bitArrayToByte ((List.range 8).map (fun j => f (8 * q + r - 8 * (g + 1) + j)))) := by
  intro q
  induction q with
  | zero =>
    have hlen : ([] : List Nat).length
        + (((List.range (8 * 0 + r)).reverse).map f).length < 8 := by
      simp
      omega
    rw [packAux_short _ _ hlen]
    simp
  | succ q ih =>
    have hadd : 8 * (q + 1) + r = (8 * q + r) + 8 := by ring
    rw [hadd, range_reverse_add8]
    simp only [List.map_cons]
    rw [packAux_group, ih]
    rw [show List.range (q + 1) = 0 :: (List.range q).map Nat.succ from
      List.range_succ_eq_map q]
    rw [List.map_cons, List.map_map]
    congr 1
    apply map_congr_range
    intro g hg
    simp only [Function.comp_apply]
    congr 1
    apply map_congr_range
    intro j hj
    congr 1
    omega

theorem canvasToImageData_eq_spec (pixels : Nat → Nat) (stride w h : Nat) :
    canvasToImageData pixels stride w h = packedImageSpec pixels stride w h := by
  have hble : ∀ a : Nat, (if pixels a = 0xFF then (0 : Nat) else 1) ≤ 1 := by
    intro a
    split <;> norm_num
  have hcol : ∀ (x : Nat) (imageData : List Nat),
      (((List.range h).reverse).foldl (packStep pixels stride x) ([], imageData)).2
        = imageData ++ (List.range (h / 8)).map (packedByteSpec pixels stride x h) := by
    intro x imageData
    have hfold : ((List.range h).reverse).foldl (packStep pixels stride x) ([], imageData)
        = (((List.range h).reverse).map
            (fun y => if pixels (y * stride + x * 4) = 0xFF then 0 else 1)).foldl
            chunkStep ([], imageData) := by
      rw [List.foldl_map]
      rfl
    rw [hfold, foldl_chunkStep_out]
    congr 1
    obtain ⟨q, r, hr, hqr⟩ : ∃ q r, r < 8 ∧ h = 8 * q + r :=
      ⟨h / 8, h % 8, Nat.mod_lt _ (by norm_num), by omega⟩
    subst hqr
    have hdiv : (8 * q + r) / 8 = q := by
      rw [Nat.mul_add_div (by norm_num)]
      simp [Nat.div_eq_of_lt hr]
    rw [hdiv, packAux_column _ _ hr q]
    apply map_congr_range
    intro g hg
    rw [packedByteSpec, map_range8_eq, map_range8_eq]
    rw [bitArrayToByte_eight _ _ _ _ _ _ _ _
      (hble _) (hble _) (hble _) (hble _) (hble _) (hble _) (hble _) (hble _)]
    simp only [List.sum_cons, List.sum_nil]
    norm_num
    ring
  rw [canvasToImageData, packedImageSpec]
  have houter : ∀ (xs : List Nat) (acc : List Nat),
      xs.foldl (fun imageData x =>
        (((List.range h).reverse).foldl (packStep pixels stride x) ([], imageData)).2) acc
        = acc ++ (xs.map (fun x =>
            (List.range (h / 8)).map (packedByteSpec pixels stride x h))).flatten := by
    intro xs
    induction xs with
    | nil => intro acc; simp
    | cons x xs ih =>
      intro acc
      rw [List.foldl_cons, hcol, ih]
      simp
  rw [houter]
  simp

/-! ### C2: bit packing order (corrected) and C7: partial byte drop -/

/-- C2 counterexample. On a 1x8 surface whose only non-white pixel is the
bottom row pixel (raw index 28 = 7 * stride + 0 * 4, the first pixel visited
in its group), the packed byte is 0x80: bit 7 is set and bit 0 is clear, so
bit 0 does not correspond to the first pixel visited. -/
theorem canvasToImageData_bit0_counterexample :
    canvasToImageData (fun i => if i = 28 then 0 else 0xFF) 4 1 8 = [128] ∧
    (fun i : Nat => if i = 28 then (0 : Nat) else 0xFF) (7 * 4 + 0 * 4) ≠ 0xFF ∧
    Nat.testBit 128 0 = false ∧ Nat.testBit 128 7 = true := by
  refine ⟨by decide, by decide, by decide, by decide⟩

/-- C2 (amended). For every pixel surface (width `w`, height `h` a multiple
of 8), the packer traverses column-major — outer loop over `x`, inner loop
over `y` from the bottom row to the top — and packs each group of 8
consecutively visited pixels into one byte; within the group, bit `j` of byte
`g` of column `x` corresponds to the pixel at `y = h - 8*(g+1) + j` and is set
iff its channel value is not the white sentinel `0xFF`.  Hence bit 7 (not
bit 0) corresponds to the first pixel visited in the group, and bit 0 to the
last. -/
theorem canvasToImageData_packing (pixels : Nat → Nat) (stride w h : Nat)
    (hmul : h % 8 = 0) :
    canvasToImageData pixels stride w h = packedImageSpec pixels stride w h :=
  canvasToImageData_eq_spec pixels stride w h

theorem canvasToImageData_packing_witness :
    (8 : Nat) % 8 = 0 ∧
    canvasToImageData (fun i => if i = 28 then 0 else 0xFF) 4 1 8
      = packedImageSpec (fun i => if i = 28 then 0 else 0xFF) 4 1 8 :=
  ⟨rfl, canvasToImageData_packing (fun i => if i = 28 then 0 else 0xFF) 4 1 8 rfl⟩

theorem sum_map_const_range (w c : Nat) : ((List.range w).map (fun _ => c)).sum = w * c := by
  induction w with
  | zero => simp
  | succ w ih =>
    rw [List.range_succ, List.map_append, List.sum_append, ih]
    simp
    ring

/-- C7. When the height is not a multiple of 8, the final partial byte of
each column is dropped without padding: each column contributes exactly
`h / 8` bytes and the total packed length is `w * (h / 8)`. -/
theorem canvasToImageData_partial_drop (pixels : Nat → Nat) (stride w h : Nat)
    (hpart : h % 8 ≠ 0) :
    canvasToImageData pixels stride w h
      = ((List.range w).map (fun x =>
          (List.range (h / 8)).map (packedByteSpec pixels stride x h))).flatten ∧
    (∀ x, ((List.range (h / 8)).map (packedByteSpec pixels stride x h)).length = h / 8) ∧
    (canvasToImageData pixels stride w h).length = w * (h / 8) := by
  refine ⟨canvasToImageData_eq_spec pixels stride w h, by intro x; simp, ?_⟩
  rw [canvasToImageData_eq_spec, packedImageSpec, List.length_flatten, List.map_map]
  rw [show (List.length ∘ fun x =>
      List.map (packedByteSpec pixels stride x h) (List.range (h / 8)))
      = (fun _ : Nat => h / 8) from by funext x; simp]
  exact sum_map_const_range w (h / 8)

theorem canvasToImageData_partial_drop_witness :
    (9 : Nat) % 8 ≠ 0 ∧
    (canvasToImageData (fun _ => 0xFF) 4 2 9).length = 2 * (9 / 8) :=
  ⟨by decide, (canvasToImageData_partial_drop (fun _ => 0xFF) 4 2 9 (by decide)).2.2⟩

/-! ### Variable substitution: `processVariables` -/

theorem replaceAll_of_no_occurrence (p r : List Char) (hp : p ≠ []) :
    ∀ s : List Char, ¬ (p <:+: s) → replaceAll p r s = s := by
  intro s
  induction s with
  | nil => intro _; simp [replaceAll]
  | cons c rest ih =>
    intro hocc
    have hnp : ¬ (p ≠ [] ∧ p <+: (c :: rest)) := by
      rintro ⟨_, hpre⟩
      exact hocc hpre.isInfix
    rw [replaceAll, dif_neg hnp]
    rw [ih (fun hinf => hocc (hinf.trans (List.suffix_cons c rest).isInfix))]

theorem foldl_replaceAll_no_occ (vars : List (List Char × List Char)) :
    ∀ content : List Char,
      (∀ kv ∈ vars, ¬ (placeholderOf kv.1 <:+: content)) →
      List.foldl (fun result kv => replaceAll (placeholderOf kv.1) kv.2 result)
        content vars = content := by
  induction vars with
  | nil => intro content _; rfl
  | cons kv vars ih =>
    intro content h
    rw [List.foldl_cons]
    have hne : placeholderOf kv.1 ≠ [] := by simp [placeholderOf]
    rw [replaceAll_of_no_occurrence _ _ hne _ (h kv (by simp))]
    exact ih content (fun kv' hkv' => h kv' (by simp [hkv']))

/-- C5 counterexample. `processVariables` substitutes double-brace
placeholders, not dollar-brace ones: on content "Hello ${name}" with the
mapping name -> Alice the output is the unchanged input, which differs from
the claimed "Hello Alice". -/
theorem processVariables_dollar_counterexample :
    processVariables helloContentDollar (some aliceVars) = helloContentDollar ∧
    helloContentDollar ≠ helloAlice := by
  constructor
  · have hne : placeholderOf ('n' :: 'a' :: 'm' :: 'e' :: []) ≠ [] := by
      simp [placeholderOf]
    have hocc : ¬ (placeholderOf ('n' :: 'a' :: 'm' :: 'e' :: []) <:+: helloContentDollar) := by
      decide
    rw [processVariables]
    rw [foldl_replaceAll_no_occ]
    intro kv hkv
    rw [aliceVars] at hkv
    simp at hkv
    rw [hkv]
    exact hocc
  · decide

/-- C5 (amended). The renderer's placeholder token for a key is the key
wrapped in double braces: the content "Hello " ++ placeholder(name) with the
mapping name -> Alice renders exactly "Hello Alice"; and every content string
containing no occurrence of any bound placeholder — in particular a content
whose placeholders all use keys absent from the mapping — is left unchanged. -/
theorem processVariables_substitution :
    processVariables helloContentBraces (some aliceVars) = helloAlice ∧
    (∀ (content : List Char) (vars : List (List Char × List Char)),
      (∀ kv ∈ vars, ¬ (placeholderOf kv.1 <:+: content)) →
      processVariables content (some vars) = content) := by
  constructor
  · rw [processVariables, aliceVars, List.foldl_cons, List.foldl_nil]
    simp +decide [replaceAll, placeholderOf, helloContentBraces, helloAlice]
  · intro content vars h
    rw [processVariables]
    exact foldl_replaceAll_no_occ vars content h

theorem processVariables_substitution_witness :
    processVariables (placeholderOf ('m' :: [])) (some aliceVars)
      = placeholderOf ('m' :: []) :=
  processVariables_substitution.2 (placeholderOf ('m' :: [])) aliceVars (by decide)

/-! ### Geometry renderer: data model and drawing-operation traces

The canvas context is modelled by the trace of primitive drawing operations
the renderer issues; the external rasteriser is deterministic, so equal
traces give pixel-identical output. -/

theorem jsRound_eq_floor (q : ℚ) : jsRound q = ⌊q + 1 / 2⌋ := by
  rw [jsRound, Rat.floor_def', Rat.floor_def]

/-! ### C6: stroke widths are not DPI-scaled (corrected) -/

/-- C6 counterexample.  At 203 DPI (scale factor 203/96) a line declared with
width 2 is stroked with lineWidth 2, while the claim's formula gives
round(2 * 203/96) = 4: endpoint geometry is scaled but the stroke width is
not. -/
theorem renderLineElement_width_counterexample :
    renderLineElement lineEx cfgEx = [CanvasOp.strokeLine 0 0 21 0 2] ∧
    jsRound (2 * cfgEx.scaleFactor) = 4 ∧ ((2 : ℚ)) ≠ ((4 : ℚ)) := by
  have hsf : cfgEx.scaleFactor = 203 / 96 := by
    norm_num [cfgEx, getCanvasConfig]
  have h0 : jsRound ((0 : ℚ) * (203 / 96)) = 0 := by
    rw [jsRound_eq_floor, show ((0 : ℚ)) * (203 / 96) + 1 / 2 = 1 / 2 by norm_num,
      Int.floor_eq_iff]
    norm_num
  have h10 : jsRound ((10 : ℚ) * (203 / 96)) = 21 := by
    rw [jsRound_eq_floor, show ((10 : ℚ)) * (203 / 96) + 1 / 2 = 1039 / 48 by norm_num,
      Int.floor_eq_iff]
    norm_num
  refine ⟨?_, ?_, by norm_num⟩
  · rw [renderLineElement, hsf]
    simp only [lineEx]
    rw [h0, h10]
    norm_num [jsOrQ]
  · rw [hsf, jsRound_eq_floor,
      show ((2 : ℚ)) * (203 / 96) + 1 / 2 = 227 / 48 by norm_num, Int.floor_eq_iff]
    norm_num

/-- C6 (amended).  Positional geometry is scaled by the config's scale factor
and rounded to the nearest integer, but stroke widths are not scaled: every
line element is stroked with exactly its declared width (default 1, zero
treated as absent), and every rule line emitted for a grid element uses the
grid's declared lineWidth (default 1) unscaled. -/
theorem render_stroke_widths (e : LineElement) (g : GridElement)
    (cfg : CanvasConfig) :
    renderLineElement e cfg
      = [CanvasOp.strokeLine
          (jsRound (e.start.x * cfg.scaleFactor)) (jsRound (e.start.y * cfg.scaleFactor))
          (jsRound (e.stop.x * cfg.scaleFactor)) (jsRound (e.stop.y * cfg.scaleFactor))
          (jsOrQ e.width 1)] ∧
    (∀ op ∈ renderGridElement g cfg, opLineWidth op = some (jsOrQ g.lineWidth 1)) := by
  refine ⟨rfl, ?_⟩
  intro op hop
  rw [renderGridElement] at hop
  simp only [List.mem_append, List.mem_map] at hop
  rcases hop with ⟨x, _, rfl⟩ | ⟨y, _, rfl⟩ <;> rfl

theorem render_stroke_widths_witness :
    opLineWidth (CanvasOp.strokeLine 0 0 0 0 2) = some ((2 : ℚ)) := by
  have hcell : jsRound ((1 : ℚ) * (1 : ℚ)) = 1 := by
    rw [jsRound_eq_floor, show ((1 : ℚ)) * 1 + 1 / 2 = 3 / 2 by norm_num,
      Int.floor_eq_iff]
    norm_num
  have hmem : CanvasOp.strokeLine 0 0 0 0 2 ∈ renderGridElement gridW cfgW := by
    rw [renderGridElement]
    simp only [gridW, cfgW, resolveBounds, jsOrQ, loopValsLe, hcell]
    norm_num [List.range_succ]
  exact (render_stroke_widths lineEx gridW cfgW).2
    (CanvasOp.strokeLine 0 0 0 0 2) hmem

/-! ### C8: unknown-element tolerance -/

theorem renderFold_localize (config : CanvasConfig)
    (variablesMap : Option (List (List Char × List Char)))
    (es : List RenderElement) :
    ∀ acc : List CanvasOp × Nat,
      es.foldl (renderStep config variablesMap) acc
        = (acc.1 ++ (es.foldl (renderStep config variablesMap) ([], 0)).1,
           acc.2 + (es.foldl (renderStep config variablesMap) ([], 0)).2) := by
  induction es with
  | nil => intro acc; simp
  | cons e es ih =>
    intro acc
    rw [List.foldl_cons, ih, List.foldl_cons,
      ih (renderStep config variablesMap ([], 0) e)]
    simp [renderStep, List.append_assoc, Nat.add_assoc]

/-- C8.  An element whose type tag is unknown contributes no drawing
operations and one logged error, and rendering continues: a template whose
element sequence is `es1 ++ [unknown] ++ es2` produces exactly the same
drawing-operation trace as the same template with the unknown element
removed, with one extra logged error. -/
theorem renderFromTemplate_unknown_skipped (config : CanvasConfig)
    (variablesMap : Option (List (List Char × List Char)))
    (t : RenderTemplate) (tag : List Char) (es1 es2 : List RenderElement)
    (h : t.elements = es1 ++ RenderElement.unknown tag :: es2) :
    (renderFromTemplate config t variablesMap).1
      = (renderFromTemplate config { t with elements := es1 ++ es2 } variablesMap).1 ∧
    (renderFromTemplate config t variablesMap).2
      = (renderFromTemplate config { t with elements := es1 ++ es2 } variablesMap).2
        + 1 := by
  rw [renderFromTemplate, renderFromTemplate, h]
  simp only [List.foldl_append, List.foldl_cons]
  rw [show renderStep config variablesMap
      (List.foldl (renderStep config variablesMap) ([], 0) es1)
      (RenderElement.unknown tag)
      = ((List.foldl (renderStep config variablesMap) ([], 0) es1).1,
         (List.foldl (renderStep config variablesMap) ([], 0) es1).2 + 1) by
    simp [renderStep, renderElement]]
  rw [renderFold_localize config variablesMap es2,
    renderFold_localize config variablesMap es2
      (List.foldl (renderStep config variablesMap) ([], 0) es1)]
  constructor
  · rfl
  · simp
    omega

theorem renderFromTemplate_unknown_skipped_witness :
    (renderFromTemplate cfgEx tmplWithUnknown none).1
      = (renderFromTemplate cfgEx
          { tmplWithUnknown with elements := [RenderElement.line lineEx] ++ [] }
          none).1 :=
  (renderFromTemplate_unknown_skipped cfgEx none tmplWithUnknown ('z' :: [])
    [RenderElement.line lineEx] [] rfl).1

/-! ### C9: effective render dimensions (corrected) -/

/-- C9 counterexample.  With base dimensions of width 0 (and no template
override) the surface width is the `|| 0xE3` fallback 227, not the effective
width 0 the claim prescribes. -/
theorem createImageCanvasSize_counterexample :
    createImageCanvasSize ⟨0, 1, 203⟩ tmplNoDims = (227, 8) ∧
    claimedEffectiveWidth ⟨0, 1, 203⟩ tmplNoDims = 0 ∧ (227 : Nat) ≠ 0 := by
  refine ⟨rfl, rfl, by norm_num⟩

/-- C9 (amended).  The rendered surface measures
`(effectiveWidth, effectiveHeight * 8)` where the effective dimensions are
the template override when present and non-zero and the base dimensions
otherwise — except that a zero effective width falls back to the default
width 0xE3 = 227. -/
theorem createImageCanvasSize_correct (base : ImageDimensions)
    (template : RenderTemplate) :
    createImageCanvasSize base template
      = ((if claimedEffectiveWidth base template = 0 then 227
          else claimedEffectiveWidth base template),
         claimedEffectiveHeight base template * 8) ∧
    (effectiveDimensions base template).width = claimedEffectiveWidth base template ∧
    (effectiveDimensions base template).height = claimedEffectiveHeight base template := by
  have hw : (effectiveDimensions base template).width
      = claimedEffectiveWidth base template := by
    rcases htd : template.dimensions with _ | td
    · simp [effectiveDimensions, claimedEffectiveWidth, htd]
    · rcases htw : td.width with _ | w
      · simp [effectiveDimensions, claimedEffectiveWidth, htd, htw, jsOrNat]
      · by_cases hzero : w = 0 <;>
          simp [effectiveDimensions, claimedEffectiveWidth, htd, htw, jsOrNat, hzero]
  have hh : (effectiveDimensions base template).height
      = claimedEffectiveHeight base template := by
    rcases htd : template.dimensions with _ | td
    · simp [effectiveDimensions, claimedEffectiveHeight, htd]
    · rcases hth : td.height with _ | hgt
      · simp [effectiveDimensions, claimedEffectiveHeight, htd, hth, jsOrNat]
      · by_cases hzero : hgt = 0 <;>
          simp [effectiveDimensions, claimedEffectiveHeight, htd, hth, jsOrNat, hzero]
  refine ⟨?_, hw, hh⟩
  rw [createImageCanvasSize, createImageConfig, getCanvasConfig]
  simp only [hw, hh]
